import Mathlib

/-!
# ChangeForge — shallow embedding and verification

A shallow embedding in Lean 4 of the core pipeline of ChangeForge, a Rust
developer-workflow tool that aggregates pending changeset records into one
semantic-version bump, a grouped changelog entry, and a rewrite of every
version-bearing file.

Embedded from the Rust sources:
* `src/utilities/changelog_utils.rs` — `new_changelog_entry`, `delete_changesets`
* `src/utilities/mod.rs` — `find_version_in_file`, `open_path`, `find_version`,
  `update_version_path`, `find_largest_version`, `parse_version`

File I/O is embedded by passing the relevant file-system view explicitly
(a map from path to optional content); a Rust `panic!` is embedded as an
error value carrying the panic message (OS-supplied error details that Rust
interpolates into some messages are elided).
-/

namespace ChangeForge

/-- Modelled from the spec (§3 Data model): the struct definition lives in
`src/options/changeset.rs`, which is not among the provided source files; the
fields and their types are those used at the construction site in
`src/options/create.rs` (`Changeset { name, change, modules, tag, message,
version }`, all strings). -/
structure Changeset where
  name : String
  change : String
  tag : String
  modules : String
  message : String
  version : String
deriving DecidableEq

/-! ## Changelog synthesis (`src/utilities/changelog_utils.rs`, `new_changelog_entry`) -/

/-- The bullet line pushed for one changeset inside the inner loop of
`new_changelog_entry`: `format!("- {}.\n", message)` when `modules.is_empty()`,
`format!("- {}: {}.\n", modules, message)` otherwise. -/
def renderBullet (c : Changeset) : String :=
  if c.modules = "" then "- " ++ c.message ++ ".\n"
  else "- " ++ c.modules ++ ": " ++ c.message ++ ".\n"

/-- The tag heading line: `format!("\n### {}\n\n", tag)`. -/
def tagHeading (t : String) : String := "\n### " ++ t ++ "\n\n"

/-- The version header line: `format!("## [{}]\n", version)`. -/
def versionHeader (v : String) : String := "## [" ++ v ++ "]\n"

/-- The outer `for changeset in changesets.iter()` loop of `new_changelog_entry`.
`all` is the full changeset slice (the inner loop re-filters it by tag);
`printed` embeds the `printed_tags : HashSet<&String>` accumulator, of which the
Rust uses only `contains` and `insert`, so a membership-tested list is a
faithful model. -/
def changelogLoop (all : List Changeset) : List Changeset → List String → List String
  | [], _ => []
  | c :: rest, printed =>
    if c.tag ∈ printed then changelogLoop all rest printed
    else
      (tagHeading c.tag ::
        (all.filter (fun x => decide (x.tag = c.tag))).map renderBullet)
        ++ changelogLoop all rest (c.tag :: printed)

/-- `new_changelog_entry(changesets, version)`: pushes the version header, then
runs the grouping loop with an initially empty `printed_tags` set. -/
def new_changelog_entry (changesets : List Changeset) (version : String) : List String :=
  versionHeader version :: changelogLoop changesets changesets []

/-! ### Specification-side description of the synthesized changelog

These definitions follow the spec's words (§4.4: "preserving the first-seen
order of distinct tags", "each heading appears exactly once with all matching
bullets gathered beneath it, in original relative order") and are compared with
the embedded `new_changelog_entry`. -/

/-- The distinct tags of a list in first-seen order: keep each tag's first
occurrence, drop later duplicates. -/
def firstSeen : List String → List String
  | [] => []
  | t :: rest => t :: (firstSeen rest).filter (fun x => decide (x ≠ t))

/-- The block emitted beneath one tag heading: the heading followed by the
bullets of exactly the changesets carrying that tag, in input order. -/
def tagBlock (all : List Changeset) (t : String) : List String :=
  tagHeading t :: (all.filter (fun x => decide (x.tag = t))).map renderBullet

/-- Spec-side shape of the synthesized changelog entry: the version header,
then one block per distinct tag in first-seen order. -/
def groupedChangelogSpec (changesets : List Changeset) (version : String) : List String :=
  versionHeader version :: (firstSeen (changesets.map (·.tag))).flatMap (tagBlock changesets)

/-- `firstSeen` with an accumulator of already-emitted tags, mirroring how
`changelogLoop` consults `printed_tags`. -/
def firstSeenFrom : List String → List String → List String
  | [], _ => []
  | t :: rest, printed =>
    if t ∈ printed then firstSeenFrom rest printed
    else t :: firstSeenFrom rest (t :: printed)

/-! ## Largest-version selection (`src/utilities/mod.rs`, `parse_version` /
`find_largest_version`)

String primitives are embedded structurally over `String.data` (the character
list), mirroring Rust's `str::split(char)` and integer parsing directly. -/

/-- Rust `version.split('.')`: split a character list at every `'.'`;
the empty string yields one empty component. -/
def splitOnDot : List Char → List (List Char)
  | [] => [[]]
  | c :: rest =>
    if c = '.' then [] :: splitOnDot rest
    else
      match splitOnDot rest with
      | [] => [[c]]
      | g :: gs => (c :: g) :: gs

/-- Accumulate the value of a digit run. -/
def digitsVal : Nat → List Char → Nat
  | acc, [] => acc
  | acc, c :: rest => digitsVal (acc * 10 + (c.toNat - '0'.toNat)) rest

/-- Rust `p.parse::<u32>().ok()` on the digit-only, in-range case: a non-empty
all-digit component parses to its value, anything else is rejected.
Machine-width caveat: Rust would also accept one leading `+` and would reject a
value above `u32::MAX`; neither occurs in any input considered here. -/
def rustParseNat (l : List Char) : Option Nat :=
  if l.isEmpty then none
  else if l.all (fun c => c.isDigit) then some (digitsVal 0 l) else none

/-- `parse_version(version)`: split on `'.'`, keep the components that parse as
unsigned integers (`filter_map(|p| p.parse().ok())`), and return the triple when
exactly three numeric components remain, `(0, 0, 0)` otherwise — the result is
always `Some`. -/
def parse_version (version : String) : Option (Nat × Nat × Nat) :=
  match (splitOnDot version.data).filterMap rustParseNat with
  | [a, b, c] => some (a, b, c)
  | _ => some (0, 0, 0)

/-- Lexicographic `≤` on version triples, the order `#[derive(Ord)]` gives
Rust's `(u32, u32, u32)`. -/
def vle (a b : Nat × Nat × Nat) : Bool :=
  decide (a.1 < b.1) ||
    (decide (a.1 = b.1) &&
      (decide (a.2.1 < b.2.1) ||
        (decide (a.2.1 = b.2.1) && decide (a.2.2 ≤ b.2.2))))

/-- `Iterator::max` on version triples: `None` on an empty sequence, otherwise a
fold that keeps the accumulator only while it is strictly greater than the next
element (so the last maximal element wins, as in Rust's `max_by`). -/
def iterMax : List (Nat × Nat × Nat) → Option (Nat × Nat × Nat)
  | [] => none
  | x :: xs => some (xs.foldl (fun acc y => if vle acc y then y else acc) x)

/-- `format!("{}.{}.{}", major, minor, patch)`. -/
def formatVersion (t : Nat × Nat × Nat) : String :=
  toString t.1 ++ "." ++ toString t.2.1 ++ "." ++ toString t.2.2

/-- `find_largest_version(changesets)`: parse each changeset's `version` field,
take the maximum triple, format it back. -/
def find_largest_version (changesets : List Changeset) : Option String :=
  (iterMax (changesets.filterMap (fun c => parse_version c.version))).map formatVersion

/-! ## Literal substring replacement (Rust `str::replace`) -/

/-- `l2` occurs as a contiguous prefix of `l1`. -/
def leadsWith : List Char → List Char → Bool
  | _, [] => true
  | [], _ :: _ => false
  | a :: as2, b :: bs => decide (a = b) && leadsWith as2 bs

/-- The scan of `str::replace`: walk the text left to right, substituting each
leftmost non-overlapping occurrence of `pat` by `rep`. The fuel argument (the
text length at the call) makes the recursion structural; each step consumes at
least one character, so it never runs out. -/
def replaceAllAux (pat rep : List Char) : Nat → List Char → List Char
  | 0, s => s
  | _, [] => []
  | fuel + 1, c :: rest =>
    if leadsWith (c :: rest) pat then
      rep ++ replaceAllAux pat rep fuel (List.drop (pat.length - 1) rest)
    else c :: replaceAllAux pat rep fuel rest

/-- Rust `s.replace(pat, rep)`: literal (non-regex) replacement of every
occurrence. The empty-pattern case returns `s` unchanged; it never arises here
(every pattern used is a non-empty version string or `"`). -/
def stringReplace (s pat rep : String) : String :=
  if pat.data.isEmpty then s
  else String.mk (replaceAllAux pat.data rep.data s.data.length s.data)

/-! ## Configuration resolution (`src/utilities/mod.rs`, `find_version_in_file`)

The TOML documents are embedded as an inductive value type supporting the two
operations the Rust uses, `Value::get` and `Value::as_array`; a file is
embedded pre-parsed as `Option (Option Toml)` (`none`: unreadable, `some none`:
readable but not valid TOML, `some (some t)`: parses to `t`). -/

/-- A TOML value, as far as `find_version_in_file` inspects one: tables
(key/value lists), arrays, and strings. Other TOML scalar kinds never occur in
a `version_path` array of this tool's configs and are not needed. -/
inductive Toml where
  | table : List (String × Toml) → Toml
  | arr : List Toml → Toml
  | str : String → Toml

/-- `Value::get(key)`: lookup in a table, `None` on non-tables. -/
def tomlGet : Toml → String → Option Toml
  | .table kvs, k => (kvs.find? (fun kv => decide (kv.1 = k))).map (·.2)
  | .arr _, _ => none
  | .str _, _ => none

/-- `Value::as_array()`. -/
def tomlAsArray : Toml → Option (List Toml)
  | .arr xs => some xs
  | _ => none

/-- `path.to_string().replace("\"", "")` applied to an array element: the
`Display` form of a TOML string is the string re-quoted, and the replacement
strips every double quote from it. Non-string elements never occur in a
`version_path` array here, so only the string case is rendered. -/
def valueToPathString : Toml → String
  | .str s => stringReplace ("\"" ++ s ++ "\"") "\"" ""
  | .table _ => ""
  | .arr _ => ""

/-- The two config files as `find_version_in_file` sees them. -/
structure ConfigFS where
  changeforgeToml : Option (Option Toml)
  pyprojectToml : Option (Option Toml)

/-- The primary branch of `find_version_in_file`: when `changeforge.toml`
reads and parses, has a `changeforge` table holding a `version_path` array, and
the rendered path list is non-empty, those paths are returned; every other
outcome falls through (`none`). -/
def primaryVersionPaths : Option (Option Toml) → Option (List String)
  | some (some t) =>
    match tomlGet t "changeforge" with
    | some cf =>
      match tomlGet cf "version_path" with
      | some pp =>
        match tomlAsArray pp with
        | some paths =>
          let vp := paths.map valueToPathString
          if vp.isEmpty then none else some vp
        | none => none
      | none => none
    | none => none
  | _ => none

/-- `find_version_in_file()`: prefer the standalone `changeforge.toml`; on any
fall-through, consult `pyproject.toml`'s `[tool.changeforge]` section, with the
Rust `panic!`/`expect` messages as error values. -/
def find_version_in_file (fs : ConfigFS) : Except String (List String) :=
  match primaryVersionPaths fs.changeforgeToml with
  | some paths => .ok paths
  | none =>
    match fs.pyprojectToml with
    | none => .error "Error reading the `pyproject.toml` file"
    | some none => .error "Error getting the file pyproject.toml"
    | some (some cfg) =>
      match tomlGet cfg "tool" with
      | none =>
        .error "The pyproject doesn't have tools associated. Please add the `changeforge` tool as [tool.changeforge]."
      | some tool =>
        match tomlGet tool "changeforge" with
        | none =>
          .error "The pyproject doesn't have changeforge as tool. You should have [tool.changeforge]."
        | some cf =>
          match tomlGet cf "version_path" with
          | none => .error "The changeforge utility doesn't include a `version_path` field"
          | some pp =>
            match tomlAsArray pp with
            | none => .error "The version path doesn't include a path"
            | some paths =>
              let vp := paths.map valueToPathString
              if vp.isEmpty then
                .error "Couldn't find any version paths in the configuration."
              else .ok vp

/-! ## Version reading (`src/utilities/mod.rs`, `open_path` / `find_version`)

A version-bearing file is embedded as its list of lines (`BufReader::lines`);
an unopenable file is `none`. -/

/-- Files viewed as lists of lines. -/
def LinesFS : Type := String → Option (List String)

/-- `str::contains(pat)`: `pat` occurs as a contiguous substring of `s`. -/
def containsSubstr (s pat : String) : Bool :=
  (List.range (s.data.length + 1)).any (fun i => leadsWith (s.data.drop i) pat.data)

/-- The marker test of the `open_path` loop:
`line.contains("version =") || line.contains("__version__ =")`. -/
def hasMarker (line : String) : Bool :=
  containsSubstr line "version =" || containsSubstr line "__version__ ="

/-- Take the maximal leading run of decimal digits (`\d+` is greedy, and the
following pattern characters `.` and `"` are not digits, so maximal munch is
exact). -/
def takeDigits : List Char → List Char × List Char
  | [] => ([], [])
  | c :: rest =>
    if c.isDigit then
      let p := takeDigits rest
      (c :: p.1, p.2)
    else ([], c :: rest)

/-- Demand one specific character. -/
def expectChar (c : Char) : List Char → Option (List Char)
  | x :: rest => if x = c then some rest else none
  | [] => none

/-- Demand a non-empty digit run, returning it and the remainder. -/
def expectDigits (l : List Char) : Option (List Char × List Char) :=
  let p := takeDigits l
  if p.1.isEmpty then none else some p

/-- Match the regex `"(\d+\.\d+\.\d+)"` anchored at the start of `l`, returning
the capture group (the three dot-separated digit runs, quotes excluded). -/
def matchVersionAt (l : List Char) : Option String := do
  let r0 ← expectChar '"' l
  let (d1, r1) ← expectDigits r0
  let r2 ← expectChar '.' r1
  let (d2, r3) ← expectDigits r2
  let r4 ← expectChar '.' r3
  let (d3, r5) ← expectDigits r4
  let _ ← expectChar '"' r5
  pure (String.mk (d1 ++ '.' :: d2 ++ '.' :: d3))

/-- `Regex::captures` for `"(\d+\.\d+\.\d+)"`: the leftmost position at which
the whole pattern matches wins, and group 1 is returned. -/
def findVersionToken (line : String) : Option String :=
  (List.range (line.data.length + 1)).findSome? (fun i => matchVersionAt (line.data.drop i))

/-- The line loop of `open_path`: the first line containing a marker decides
the outcome (extracted version, or a fatal message naming the line); a file
with no marker line is fatal with a message enumerating the two marker names. -/
def openPathLines (path : String) : List String → Except String String
  | [] =>
    .error ("Couldn't find the version in the path " ++ path ++
      ". Try with the following version names: [\"version\", \"__version__\"]")
  | line :: rest =>
    if hasMarker line then
      match findVersionToken line with
      | some v => .ok v
      | none => .error ("In the line \"" ++ line ++ "\" it cannot be found a version number.")
    else openPathLines path rest

/-- `open_path(path)`: an unopenable file is fatal, otherwise scan its lines. -/
def open_path (fs : LinesFS) (path : String) : Except String String :=
  match fs path with
  | none => .error ("Error opening file " ++ path ++ ".")
  | some lines => openPathLines path lines

/-- `find_version()`: resolve the configured version paths and read the first
one (`version_paths[0]`; every `ok` result of `find_version_in_file` is
non-empty, so the default for the empty case is never reached). -/
def find_version (cfg : ConfigFS) (fs : LinesFS) : Except String String :=
  match find_version_in_file cfg with
  | .error e => .error e
  | .ok paths => open_path fs (paths.headD "")

/-! ## Version propagation (`src/utilities/mod.rs`, `update_version_path`)

Files viewed as whole contents (`read_to_string` / `write_all`). The Rust
function computes `version_paths` via `find_version_in_file()` and the old
version via `find_version()` before its loop; the loop itself is embedded with
those two values passed in. A `panic!` mid-loop leaves the files already
processed rewritten, so the embedding returns the file system reached together
with an optional fatal message. -/

/-- Files viewed as whole contents. -/
def FilesFS : Type := String → Option String

/-- Overwrite one file (`fs::File::create` + `write_all`). -/
def setFile (fs : FilesFS) (p c : String) : FilesFS :=
  fun q => if q = p then some c else fs q

/-- The per-path loop of `update_version_path`: for each path in order, read
the full content, replace every occurrence of the old version with the new one
(Rust `str::replace` — literal, non-regex), and overwrite the file. A file
that cannot be opened panics, aborting the remaining paths. -/
def update_version_path :
    List String → String → String → FilesFS → FilesFS × Option String
  | [], _, _, fs => (fs, none)
  | p :: rest, old, new, fs =>
    match fs p with
    | none => (fs, some ("Error opening file " ++ p ++ "."))
    | some content =>
      update_version_path rest old new (setFile fs p (stringReplace content old new))

/-! ## Changeset store cleanup (`src/utilities/changelog_utils.rs`,
`delete_changesets`) -/

/-- One directory entry of the `.changesets` folder as the Rust loop inspects
it: its path, whether `path.is_file()` holds, and whether `fs::remove_file`
would succeed on it. -/
structure DirEntry where
  name : String
  file : Bool
  removable : Bool
deriving DecidableEq

/-- The entry loop of `delete_changesets`: delete each regular file in order
(skipping non-file entries); a failed deletion panics, leaving the failing
file and everything after it in place. Returns the entries remaining in the
directory and the optional fatal message. -/
def deleteEntries : List DirEntry → List DirEntry × Option String
  | [] => ([], none)
  | e :: rest =>
    if e.file then
      if e.removable then deleteEntries rest
      else (e :: rest, some ("Error deleting file " ++ e.name))
    else
      let p := deleteEntries rest
      (e :: p.1, p.2)

/-- `delete_changesets()`: a missing `.changesets` directory (`read_dir`
failing) is itself fatal; otherwise run the deletion loop. -/
def delete_changesets :
    Option (List DirEntry) → Option (List DirEntry) × Option String
  | none => (none, some "The folder .changesets does not exist.")
  | some entries =>
    let p := deleteEntries entries
    (some p.1, p.2)

/-! ## Version computation (`src/utilities/version_operations.rs`,
`calculate_next_version`) -/

/-- Parse a `MAJOR.MINOR.PATCH` string into its three numeric components. -/
def parseDotVersion (s : String) : Nat × Nat × Nat :=
  let parts := (splitOnDot s.data).map (fun p => (rustParseNat p).getD 0)
  (parts.getD 0 0, parts.getD 1 0, parts.getD 2 0)

/-- The bump rules of the version computation engine on a version triple:
MAJOR resets minor and patch, MINOR resets patch, PATCH increments patch. -/
def bumpVersion (t : Nat × Nat × Nat) : String → Nat × Nat × Nat
  | "MAJOR" => (t.1 + 1, 0, 0)
  | "MINOR" => (t.1, t.2.1 + 1, 0)
  | _ => (t.1, t.2.1, t.2.2 + 1)

/-- Modelled from the spec: the implementation of `calculate_next_version`
lives in `src/utilities/version_operations.rs`, which is not among the
provided source files — only its declaration in `src/utilities/mod.rs` and its
call site in `src/options/create.rs` are. Following spec §4.3: MAJOR →
`(major+1, 0, 0)`, MINOR → `(major, minor+1, 0)`, PATCH →
`(major, minor, patch+1)`; the current version is parsed from and the result
rendered back to a `MAJOR.MINOR.PATCH` string. The call site guarantees the
change kind is one of the three words (a regex extracts `MAJOR|MINOR|PATCH`
before the call); the spec leaves the unrecognized-kind policy open
(reject or treat as PATCH), and the model folds it into the PATCH arm, which
no claim exercises. -/
def calculate_next_version (current change : String) : String :=
  formatVersion (bumpVersion (parseDotVersion current) change)

/-! ## Concrete fixtures used to instantiate the verified statements -/

/-- A changeset whose only relevant field is its `version`. -/
def mkVersionCS (v : String) : Changeset :=
  { name := "n", change := "PATCH", tag := "Bug", modules := "", message := "m", version := v }

/-- A parsed `changeforge.toml` whose `[changeforge]` section holds an empty
`version_path` array. -/
def cfEmptyPrimary : Option (Option Toml) :=
  some (some (Toml.table [("changeforge", Toml.table [("version_path", Toml.arr [])])]))

/-- A parsed `changeforge.toml` whose `[changeforge]` section holds
`version_path = ["cf-path"]`. -/
def cfGoodPrimary : Option (Option Toml) :=
  some (some (Toml.table [("changeforge", Toml.table [("version_path", Toml.arr [Toml.str "cf-path"])])]))

/-- A parsed `pyproject.toml` with `[tool.changeforge]` and `version_path = [p]`. -/
def pyWith (p : String) : Option (Option Toml) :=
  some (some (Toml.table [("tool",
    Toml.table [("changeforge", Toml.table [("version_path", Toml.arr [Toml.str p])])])]))

/-- A parsed `pyproject.toml` with `[tool.changeforge]` and an empty
`version_path` array. -/
def pyEmpty : Option (Option Toml) :=
  some (some (Toml.table [("tool",
    Toml.table [("changeforge", Toml.table [("version_path", Toml.arr [])])])]))

/-- A two-file project for exercising version propagation: the old version
occurs both in a version field and inside a longer token. -/
def propFS : FilesFS := fun q =>
  if q = "Cargo.toml" then some "version = \"1.0.0\" tag-v1.0.0-final"
  else if q = "pkg.py" then some "__version__ = \"1.0.0\"" else none

/-- A project for exercising the version reader: a config line precedes two
version lines. -/
def readFS : LinesFS := fun p =>
  if p = "pyproject.toml" then
    some ["[tool.poetry]", "version = \"1.2.3\"", "version = \"9.9.9\""]
  else none

/-- A regular deletable file entry named `a`. -/
def entFileA : DirEntry := { name := "a", file := true, removable := true }

/-- A subdirectory entry named `d`. -/
def entDirD : DirEntry := { name := "d", file := false, removable := true }

/-- A regular file entry named `locked` whose deletion fails. -/
def entLocked : DirEntry := { name := "locked", file := true, removable := false }

/-! ## Supporting lemmas -/

lemma firstSeenFrom_eq_filter :
    ∀ (l printed : List String),
      firstSeenFrom l printed = (firstSeen l).filter (fun x => decide (x ∉ printed)) := by
  intro l
  induction l with
  | nil => intro printed; simp [firstSeenFrom, firstSeen]
  | cons t rest ih =>
    intro printed
    by_cases h : t ∈ printed
    · have hcongr :
          ∀ x ∈ firstSeen rest,
            (decide (x ∉ printed)) = (decide (x ∉ printed) && decide (x ≠ t)) := by
        intro x _
        by_cases hx : x = t
        · subst hx; simp [h]
        · simp [hx]
      simp only [firstSeenFrom, firstSeen, if_pos h, ih, List.filter_cons,
        List.filter_filter]
      rw [List.filter_congr hcongr]
      simp [h]
    · have hcongr :
          ∀ x ∈ firstSeen rest,
            (decide (x ∉ t :: printed)) = (decide (x ∉ printed) && decide (x ≠ t)) := by
        intro x _
        by_cases hx : x = t
        · subst hx; simp
        · simp [hx]
      simp only [firstSeenFrom, firstSeen, if_neg h, ih, List.filter_cons,
        List.filter_filter]
      rw [List.filter_congr hcongr]
      simp [h]

lemma firstSeenFrom_nil_right (l : List String) : firstSeenFrom l [] = firstSeen l := by
  rw [firstSeenFrom_eq_filter]
  simp

lemma changelogLoop_eq (all : List Changeset) :
    ∀ (cs : List Changeset) (printed : List String),
      changelogLoop all cs printed =
        (firstSeenFrom (cs.map (·.tag)) printed).flatMap (tagBlock all) := by
  intro cs
  induction cs with
  | nil => intro printed; simp [changelogLoop, firstSeenFrom]
  | cons c rest ih =>
    intro printed
    by_cases h : c.tag ∈ printed
    · simp [changelogLoop, firstSeenFrom, h, ih]
    · simp [changelogLoop, firstSeenFrom, h, ih, tagBlock]

/-- The embedded synthesizer equals its spec-side description. -/
lemma new_changelog_entry_eq_spec (changesets : List Changeset) (version : String) :
    new_changelog_entry changesets version = groupedChangelogSpec changesets version := by
  unfold new_changelog_entry groupedChangelogSpec
  rw [changelogLoop_eq, firstSeenFrom_nil_right]

lemma mem_firstSeen {a : String} : ∀ {l : List String}, a ∈ firstSeen l ↔ a ∈ l := by
  intro l
  induction l with
  | nil => simp [firstSeen]
  | cons t rest ih =>
    by_cases hx : a = t
    · subst hx; simp [firstSeen]
    · simp [firstSeen, List.mem_filter, hx, ih]

lemma parse_version_isSome (v : String) : ∃ t, parse_version v = some t := by
  unfold parse_version
  generalize (splitOnDot v.data).filterMap rustParseNat = l
  match l with
  | [] => exact ⟨(0, 0, 0), rfl⟩
  | [a] => exact ⟨(0, 0, 0), rfl⟩
  | [a, b] => exact ⟨(0, 0, 0), rfl⟩
  | [a, b, c] => exact ⟨(a, b, c), rfl⟩
  | a :: b :: c :: d :: rest => exact ⟨(0, 0, 0), rfl⟩

lemma vle_refl (a : Nat × Nat × Nat) : vle a a = true := by
  obtain ⟨a1, a2, a3⟩ := a
  simp [vle]

lemma vle_total (a b : Nat × Nat × Nat) : vle a b = true ∨ vle b a = true := by
  obtain ⟨a1, a2, a3⟩ := a
  obtain ⟨b1, b2, b3⟩ := b
  simp only [vle, Bool.or_eq_true, Bool.and_eq_true, decide_eq_true_eq]
  omega

lemma vle_trans {a b c : Nat × Nat × Nat} (hab : vle a b = true) (hbc : vle b c = true) :
    vle a c = true := by
  obtain ⟨a1, a2, a3⟩ := a
  obtain ⟨b1, b2, b3⟩ := b
  obtain ⟨c1, c2, c3⟩ := c
  simp only [vle, Bool.or_eq_true, Bool.and_eq_true, decide_eq_true_eq] at *
  omega

lemma foldlMax_mem (xs : List (Nat × Nat × Nat)) :
    ∀ x : Nat × Nat × Nat,
      xs.foldl (fun acc y => if vle acc y then y else acc) x = x ∨
        xs.foldl (fun acc y => if vle acc y then y else acc) x ∈ xs := by
  induction xs with
  | nil => intro x; simp
  | cons y ys ih =>
    intro x
    simp only [List.foldl_cons]
    rcases ih (if vle x y then y else x) with h | h
    · rw [h]
      by_cases hv : vle x y = true
      · simp only [hv, if_true]
        right; exact List.mem_cons_self y ys
      · simp only [hv, if_false]
        left; rfl
    · right; exact List.mem_cons_of_mem y h

lemma foldlMax_ge_init (xs : List (Nat × Nat × Nat)) :
    ∀ x : Nat × Nat × Nat,
      vle x (xs.foldl (fun acc y => if vle acc y then y else acc) x) = true := by
  induction xs with
  | nil => intro x; simpa using vle_refl x
  | cons y ys ih =>
    intro x
    simp only [List.foldl_cons]
    have step : vle x (if vle x y then y else x) = true := by
      by_cases hv : vle x y = true
      · simp [hv]
      · simpa [hv] using vle_refl x
    exact vle_trans step (ih _)

lemma foldlMax_ge_mem (xs : List (Nat × Nat × Nat)) :
    ∀ (x u : Nat × Nat × Nat), u ∈ xs →
      vle u (xs.foldl (fun acc y => if vle acc y then y else acc) x) = true := by
  induction xs with
  | nil => intro x u hu; simp at hu
  | cons y ys ih =>
    intro x u hu
    simp only [List.foldl_cons]
    rcases List.mem_cons.mp hu with h | h
    · subst h
      have step : vle u (if vle x u then u else x) = true := by
        by_cases hv : vle x u = true
        · simpa [hv] using vle_refl u
        · rcases vle_total x u with h2 | h2
          · exact absurd h2 hv
          · simpa [hv]
      exact vle_trans step (foldlMax_ge_init ys _)
    · exact ih _ u h

lemma iterMax_spec (l : List (Nat × Nat × Nat)) (hl : l ≠ []) :
    ∃ m, iterMax l = some m ∧ m ∈ l ∧ ∀ u ∈ l, vle u m = true := by
  cases l with
  | nil => cases hl rfl
  | cons x xs =>
    refine ⟨xs.foldl (fun acc y => if vle acc y then y else acc) x, rfl, ?_, ?_⟩
    · rcases foldlMax_mem xs x with h | h
      · rw [h]; exact List.mem_cons_self x xs
      · exact List.mem_cons_of_mem x h
    · intro u hu
      rcases List.mem_cons.mp hu with h | h
      · subst h; exact foldlMax_ge_init xs u
      · exact foldlMax_ge_mem xs x u h

lemma openPathLines_append_of_no_marker (path : String) :
    ∀ (preL rest : List String), (∀ l ∈ preL, hasMarker l = false) →
      openPathLines path (preL ++ rest) = openPathLines path rest := by
  intro preL
  induction preL with
  | nil => intro rest _; rfl
  | cons l ls ih =>
    intro rest h
    have hl : hasMarker l = false := h l (List.mem_cons_self l ls)
    have hls : ∀ x ∈ ls, hasMarker x = false := fun x hx => h x (List.mem_cons_of_mem l hx)
    simp only [List.cons_append, openPathLines, hl]
    simpa using ih rest hls

lemma deleteEntries_all_ok :
    ∀ entries : List DirEntry, (∀ e ∈ entries, e.file = true → e.removable = true) →
      deleteEntries entries = (entries.filter (fun e => !e.file), none) := by
  intro entries
  induction entries with
  | nil => intro _; rfl
  | cons e rest ih =>
    intro h
    have hrest : ∀ x ∈ rest, x.file = true → x.removable = true :=
      fun x hx => h x (List.mem_cons_of_mem e hx)
    by_cases he : e.file = true
    · have hrm : e.removable = true := h e (List.mem_cons_self e rest) he
      simp [deleteEntries, he, hrm, ih hrest, List.filter_cons]
    · simp only [Bool.not_eq_true] at he
      simp [deleteEntries, he, ih hrest, List.filter_cons]

lemma deleteEntries_fail :
    ∀ (preE : List DirEntry) (e : DirEntry) (postE : List DirEntry),
      (∀ x ∈ preE, x.file = true → x.removable = true) →
      e.file = true → e.removable = false →
      deleteEntries (preE ++ e :: postE) =
        (preE.filter (fun x => !x.file) ++ e :: postE,
          some ("Error deleting file " ++ e.name)) := by
  intro preE
  induction preE with
  | nil =>
    intro e postE _ he hrm
    simp [deleteEntries, he, hrm]
  | cons x rest ih =>
    intro e postE h he hrm
    have hrest : ∀ y ∈ rest, y.file = true → y.removable = true :=
      fun y hy => h y (List.mem_cons_of_mem x hy)
    by_cases hx : x.file = true
    · have hxr : x.removable = true := h x (List.mem_cons_self x rest) hx
      simp [deleteEntries, hx, hxr, ih e postE hrest he hrm, List.filter_cons]
    · simp only [Bool.not_eq_true] at hx
      simp [deleteEntries, hx, ih e postE hrest he hrm, List.filter_cons]

/-! ## The claims -/

/-- C1. For every sequence of changesets and every version string, the
changelog synthesizer first emits the `## [version]` header line, then — in
first-seen order of distinct tags — one heading per distinct tag, each exactly
once, with the bullets of exactly the changesets carrying that tag directly
beneath it, in their original relative input order: `new_changelog_entry`
coincides with the spec-shaped `groupedChangelogSpec`. -/
theorem changelog_grouping_first_seen (changesets : List Changeset) (version : String) :
    new_changelog_entry changesets version = groupedChangelogSpec changesets version :=
  new_changelog_entry_eq_spec changesets version

/-- C8. Every changeset with empty `modules` contributes the bullet line
`- {message}.` and every changeset with non-empty `modules` contributes the
bullet line `- {modules}: {message}.` to the synthesized changelog (each line
carrying the trailing newline the Rust `format!` embeds). -/
theorem changelog_bullet_format (changesets : List Changeset) (version : String)
    (c : Changeset) (hc : c ∈ changesets) :
    (c.modules = "" →
      ("- " ++ c.message ++ ".\n") ∈ new_changelog_entry changesets version) ∧
    (c.modules ≠ "" →
      ("- " ++ c.modules ++ ": " ++ c.message ++ ".\n") ∈ new_changelog_entry changesets version) := by
  have hmem : renderBullet c ∈ new_changelog_entry changesets version := by
    rw [new_changelog_entry_eq_spec]
    unfold groupedChangelogSpec
    refine List.mem_cons_of_mem _ ?_
    refine List.mem_flatMap.mpr ⟨c.tag, ?_, ?_⟩
    · exact mem_firstSeen.mpr (List.mem_map_of_mem (·.tag) hc)
    · unfold tagBlock
      refine List.mem_cons_of_mem _ ?_
      refine List.mem_map_of_mem renderBullet ?_
      exact List.mem_filter.mpr ⟨hc, by simp⟩
  constructor
  · intro h
    have : renderBullet c = "- " ++ c.message ++ ".\n" := by simp [renderBullet, h]
    rwa [this] at hmem
  · intro h
    have : renderBullet c = "- " ++ c.modules ++ ": " ++ c.message ++ ".\n" := by
      simp [renderBullet, h]
    rwa [this] at hmem

/-- C8 witness: instantiated on a concrete two-changeset input, one with empty
and one with non-empty `modules`. -/
theorem changelog_bullet_format_witness :
    ("- add retry.\n" ∈ new_changelog_entry
        [⟨"a", "PATCH", "Bug", "parser", "fix off-by-one", "0.4.2"⟩,
         ⟨"b", "MINOR", "Feature", "", "add retry", "0.5.0"⟩] "0.5.0") ∧
    ("- parser: fix off-by-one.\n" ∈ new_changelog_entry
        [⟨"a", "PATCH", "Bug", "parser", "fix off-by-one", "0.4.2"⟩,
         ⟨"b", "MINOR", "Feature", "", "add retry", "0.5.0"⟩] "0.5.0") := by
  constructor
  · exact (changelog_bullet_format
      [⟨"a", "PATCH", "Bug", "parser", "fix off-by-one", "0.4.2"⟩,
       ⟨"b", "MINOR", "Feature", "", "add retry", "0.5.0"⟩] "0.5.0"
      ⟨"b", "MINOR", "Feature", "", "add retry", "0.5.0"⟩ (by decide)).1 rfl
  · exact (changelog_bullet_format
      [⟨"a", "PATCH", "Bug", "parser", "fix off-by-one", "0.4.2"⟩,
       ⟨"b", "MINOR", "Feature", "", "add retry", "0.5.0"⟩] "0.5.0"
      ⟨"a", "PATCH", "Bug", "parser", "fix off-by-one", "0.4.2"⟩ (by decide)).2 (by decide)

/-- C2. `find_largest_version` is `none` on the empty list; on a non-empty
list it returns the maximum of the parsed `(major, minor, patch)` triples
under lexicographic order, formatted back as `major.minor.patch` (parsing is
total: a malformed version becomes `(0,0,0)` rather than being rejected); and
on versions `1.0.0`, `2.1.0`, `1.9.9` it returns `2.1.0`. -/
theorem find_largest_version_spec :
    find_largest_version [] = none ∧
    (∀ changesets : List Changeset, changesets ≠ [] →
      ∃ t : Nat × Nat × Nat,
        t ∈ changesets.filterMap (fun c => parse_version c.version) ∧
        (∀ u ∈ changesets.filterMap (fun c => parse_version c.version), vle u t = true) ∧
        find_largest_version changesets = some (formatVersion t)) ∧
    find_largest_version [mkVersionCS "1.0.0", mkVersionCS "2.1.0", mkVersionCS "1.9.9"]
      = some "2.1.0" := by
  refine ⟨rfl, ?_, by decide⟩
  intro changesets hne
  have hparsed : changesets.filterMap (fun c => parse_version c.version) ≠ [] := by
    cases changesets with
    | nil => cases hne rfl
    | cons c rest =>
      obtain ⟨t0, ht0⟩ := parse_version_isSome c.version
      simp [List.filterMap_cons, ht0]
  obtain ⟨m, hm1, hm2, hm3⟩ := iterMax_spec _ hparsed
  refine ⟨m, hm2, hm3, ?_⟩
  unfold find_largest_version
  rw [hm1]
  rfl

/-- C2 witness: instantiated on the concrete three-version list. -/
theorem find_largest_version_spec_witness :
    ∃ t : Nat × Nat × Nat,
      t ∈ ([mkVersionCS "1.0.0", mkVersionCS "2.1.0", mkVersionCS "1.9.9"].filterMap
            (fun c => parse_version c.version)) ∧
      (∀ u ∈ ([mkVersionCS "1.0.0", mkVersionCS "2.1.0", mkVersionCS "1.9.9"].filterMap
            (fun c => parse_version c.version)), vle u t = true) ∧
      find_largest_version [mkVersionCS "1.0.0", mkVersionCS "2.1.0", mkVersionCS "1.9.9"]
        = some (formatVersion t) :=
  find_largest_version_spec.2.1
    [mkVersionCS "1.0.0", mkVersionCS "2.1.0", mkVersionCS "1.9.9"] (by decide)

/-- C10. `find_largest_version` never returns `none` on a non-empty list,
because `parse_version` is total: `1..2.3` parses as `(1, 2, 3)` (non-numeric
dot-separated components are silently discarded) and a list of only unparsable
versions yields `0.0.0`. -/
theorem find_largest_version_total :
    (∀ changesets : List Changeset, changesets ≠ [] →
      ∃ s, find_largest_version changesets = some s) ∧
    parse_version "1..2.3" = some (1, 2, 3) ∧
    find_largest_version [mkVersionCS "abc", mkVersionCS "x.y"] = some "0.0.0" := by
  refine ⟨?_, by decide, by decide⟩
  intro changesets hne
  have hparsed : changesets.filterMap (fun c => parse_version c.version) ≠ [] := by
    cases changesets with
    | nil => cases hne rfl
    | cons c rest =>
      obtain ⟨t0, ht0⟩ := parse_version_isSome c.version
      simp [List.filterMap_cons, ht0]
  obtain ⟨m, hm1, _, _⟩ := iterMax_spec _ hparsed
  exact ⟨formatVersion m, by unfold find_largest_version; rw [hm1]; rfl⟩

/-- C10 witness: instantiated on a concrete singleton with an unparsable
version. -/
theorem find_largest_version_total_witness :
    ∃ s, find_largest_version [mkVersionCS "not-a-version"] = some s :=
  find_largest_version_total.1 [mkVersionCS "not-a-version"] (by decide)

/-- C3 counterexample: `changeforge.toml` is present, parses, and contains the
expected `[changeforge]` section (first conjunct), yet the result of
configuration resolution still depends on `pyproject.toml` — with the section's
`version_path` an empty array, two different fallback files give two different
answers — so the fallback is consulted even though the primary file is present
with its section, and the empty `version_path` is not a fatal error there. -/
theorem config_fallback_counterexample :
    tomlGet (Toml.table [("changeforge", Toml.table [("version_path", Toml.arr [])])])
        "changeforge" = some (Toml.table [("version_path", Toml.arr [])]) ∧
    find_version_in_file ⟨cfEmptyPrimary, pyWith "a"⟩ = .ok ["a"] ∧
    find_version_in_file ⟨cfEmptyPrimary, pyWith "b"⟩ = .ok ["b"] :=
  ⟨rfl, rfl, rfl⟩

/-- C3 (amended). Whenever the primary `changeforge.toml` yields a non-empty
`version_path` list, it is used exclusively (the result is that list and is
independent of `pyproject.toml`); on any primary fall-through — including a
present `[changeforge]` section with an empty `version_path` array — the
fallback is consulted, and there a `version_path` field that is present but an
empty array is a fatal error with a distinct message. -/
theorem config_fallback_amended :
    (∀ (p : Option (Option Toml)) (paths : List String) (py1 py2 : Option (Option Toml)),
        primaryVersionPaths p = some paths →
        find_version_in_file ⟨p, py1⟩ = .ok paths ∧
        find_version_in_file ⟨p, py1⟩ = find_version_in_file ⟨p, py2⟩) ∧
    (∀ (p : Option (Option Toml)) (py tool cf : Toml),
        primaryVersionPaths p = none →
        tomlGet py "tool" = some tool →
        tomlGet tool "changeforge" = some cf →
        tomlGet cf "version_path" = some (Toml.arr []) →
        find_version_in_file ⟨p, some (some py)⟩ =
          .error "Couldn't find any version paths in the configuration.") := by
  constructor
  · intro p paths py1 py2 h
    constructor
    · simp [find_version_in_file, h]
    · simp [find_version_in_file, h]
  · intro p py tool cf hp ht hc hv
    simp [find_version_in_file, hp, ht, hc, hv, tomlAsArray]

/-- C3 witness: instantiated on a primary config carrying `version_path =
["cf-path"]` against two different fallback files, and on an empty primary
against a fallback whose `version_path` is the empty array. -/
theorem config_fallback_amended_witness :
    (find_version_in_file ⟨cfGoodPrimary, pyWith "a"⟩ = .ok ["cf-path"] ∧
      find_version_in_file ⟨cfGoodPrimary, pyWith "a"⟩ =
        find_version_in_file ⟨cfGoodPrimary, pyWith "b"⟩) ∧
    find_version_in_file ⟨none,
        some (some (Toml.table [("tool",
          Toml.table [("changeforge", Toml.table [("version_path", Toml.arr [])])])]))⟩ =
      .error "Couldn't find any version paths in the configuration." :=
  ⟨config_fallback_amended.1 cfGoodPrimary ["cf-path"] (pyWith "a") (pyWith "b") rfl,
    config_fallback_amended.2 none
      (Toml.table [("tool",
        Toml.table [("changeforge", Toml.table [("version_path", Toml.arr [])])])])
      (Toml.table [("changeforge", Toml.table [("version_path", Toml.arr [])])])
      (Toml.table [("version_path", Toml.arr [])]) rfl rfl rfl rfl⟩

/-- The propagation loop on all-readable, duplicate-free paths: every
configured file is rewritten with the literal replacement of its full content,
every other file is untouched, and no error is raised. -/
lemma update_loop_ok :
    ∀ (paths : List String) (old new : String) (fs : FilesFS),
      paths.Nodup → (∀ p ∈ paths, fs p ≠ none) →
      ∃ fs2, update_version_path paths old new fs = (fs2, none) ∧
        (∀ p ∈ paths, fs2 p = (fs p).map (fun c => stringReplace c old new)) ∧
        (∀ q, q ∉ paths → fs2 q = fs q) := by
  intro paths
  induction paths with
  | nil =>
    intro old new fs _ _
    exact ⟨fs, rfl, by simp, fun q _ => rfl⟩
  | cons p rest ih =>
    intro old new fs hnodup hread
    have hp : fs p ≠ none := hread p (List.mem_cons_self p rest)
    cases hc : fs p with
    | none => exact absurd hc hp
    | some content =>
      have hnd := List.nodup_cons.mp hnodup
      have hread2 : ∀ r ∈ rest, setFile fs p (stringReplace content old new) r ≠ none := by
        intro r hr
        have hrp : r ≠ p := fun h => hnd.1 (h ▸ hr)
        simpa [setFile, hrp] using hread r (List.mem_cons_of_mem p hr)
      obtain ⟨fs2, h1, h2, h3⟩ :=
        ih old new (setFile fs p (stringReplace content old new)) hnd.2 hread2
      refine ⟨fs2, ?_, ?_, ?_⟩
      · simpa [update_version_path, hc] using h1
      · intro x hx
        rcases List.mem_cons.mp hx with h | h
        · subst h
          rw [h3 x hnd.1]
          simp [setFile, hc]
        · have hxp : x ≠ p := fun hh => hnd.1 (hh ▸ h)
          rw [h2 x h]
          simp [setFile, hxp, hc]
      · intro q hq
        have hq1 : q ≠ p := fun hh => hq (hh ▸ List.mem_cons_self p rest)
        have hq2 : q ∉ rest := fun hh => hq (List.mem_cons_of_mem p hh)
        rw [h3 q hq2]
        simp [setFile, hq1]

/-- C4. When every configured path is readable (paths pairwise distinct), each
file's full content is rewritten, independently, to the literal (non-regex)
replacement of every occurrence of the old version by the new one — including
occurrences inside unrelated longer tokens, since the substitution acts on the
whole content — and files outside the configured list are untouched. -/
theorem propagate_literal_replacement (paths : List String) (old new : String)
    (fs : FilesFS) (hnodup : paths.Nodup) (hread : ∀ p ∈ paths, fs p ≠ none) :
    ∃ fs2, update_version_path paths old new fs = (fs2, none) ∧
      (∀ p ∈ paths, fs2 p = (fs p).map (fun c => stringReplace c old new)) ∧
      (∀ q, q ∉ paths → fs2 q = fs q) :=
  update_loop_ok paths old new fs hnodup hread

/-- C4 witness: a two-file project where the old version occurs both in a
version field and embedded in a longer token. -/
theorem propagate_literal_replacement_witness :
    (∃ fs2, update_version_path ["Cargo.toml", "pkg.py"] "1.0.0" "1.1.0" propFS
        = (fs2, none) ∧
      (∀ p ∈ ["Cargo.toml", "pkg.py"],
        fs2 p = (propFS p).map (fun c => stringReplace c "1.0.0" "1.1.0")) ∧
      (∀ q, q ∉ ["Cargo.toml", "pkg.py"] → fs2 q = propFS q)) ∧
    stringReplace "version = \"1.0.0\" tag-v1.0.0-final" "1.0.0" "1.1.0"
      = "version = \"1.1.0\" tag-v1.1.0-final" :=
  ⟨propagate_literal_replacement ["Cargo.toml", "pkg.py"] "1.0.0" "1.1.0" propFS
      (by decide) (by decide),
    by decide⟩

/-- The propagation loop when the file at position K is unopenable and all
earlier paths are readable: the loop stops with the fatal open error, the
earlier files are already rewritten, and every other file — the failing one and
the later ones included — is untouched. -/
lemma update_loop_fail :
    ∀ (pre : List String) (post : List String) (k old new : String) (fs : FilesFS),
      pre.Nodup → k ∉ pre → (∀ p ∈ pre, fs p ≠ none) → fs k = none →
      ∃ fs2, update_version_path (pre ++ k :: post) old new fs
          = (fs2, some ("Error opening file " ++ k ++ ".")) ∧
        (∀ p ∈ pre, fs2 p = (fs p).map (fun c => stringReplace c old new)) ∧
        (∀ q, q ∉ pre → fs2 q = fs q) := by
  intro pre
  induction pre with
  | nil =>
    intro post k old new fs _ _ _ hkfail
    refine ⟨fs, ?_, by simp, fun q _ => rfl⟩
    simp [update_version_path, hkfail]
  | cons p rest ih =>
    intro post k old new fs hnodup hk hpre hkfail
    have hp : fs p ≠ none := hpre p (List.mem_cons_self p rest)
    cases hc : fs p with
    | none => exact absurd hc hp
    | some content =>
      have hnd := List.nodup_cons.mp hnodup
      have hk2 : k ∉ rest := fun hh => hk (List.mem_cons_of_mem p hh)
      have hkp : k ≠ p := fun hh => hk (hh ▸ List.mem_cons_self p rest)
      have hpre2 : ∀ r ∈ rest, setFile fs p (stringReplace content old new) r ≠ none := by
        intro r hr
        have hrp : r ≠ p := fun h => hnd.1 (h ▸ hr)
        simpa [setFile, hrp] using hpre r (List.mem_cons_of_mem p hr)
      have hkfail2 : setFile fs p (stringReplace content old new) k = none := by
        simp [setFile, hkp, hkfail]
      obtain ⟨fs2, h1, h2, h3⟩ :=
        ih post k old new (setFile fs p (stringReplace content old new)) hnd.2 hk2 hpre2 hkfail2
      refine ⟨fs2, ?_, ?_, ?_⟩
      · simpa [update_version_path, hc] using h1
      · intro x hx
        rcases List.mem_cons.mp hx with h | h
        · subst h
          rw [h3 x hnd.1]
          simp [setFile, hc]
        · have hxp : x ≠ p := fun hh => hnd.1 (hh ▸ h)
          rw [h2 x h]
          simp [setFile, hxp, hc]
      · intro q hq
        have hq1 : q ≠ p := fun hh => hq (hh ▸ List.mem_cons_self p rest)
        have hq2 : q ∉ rest := fun hh => hq (List.mem_cons_of_mem p hh)
        rw [h3 q hq2]
        simp [setFile, hq1]

/-- C5. Version propagation is not transactional: when file K of the
configured paths fails to open (the earlier ones readable and pairwise
distinct), the loop aborts with the fatal error for file K, the files before K
have already been rewritten with the replacement, and every file other than
those — file K and the later paths included — is untouched. -/
theorem propagate_non_transactional (pre post : List String) (k old new : String)
    (fs : FilesFS) (hnodup : pre.Nodup) (hk : k ∉ pre)
    (hpre : ∀ p ∈ pre, fs p ≠ none) (hkfail : fs k = none) :
    ∃ fs2, update_version_path (pre ++ k :: post) old new fs
        = (fs2, some ("Error opening file " ++ k ++ ".")) ∧
      (∀ p ∈ pre, fs2 p = (fs p).map (fun c => stringReplace c old new)) ∧
      (∀ q, q ∉ pre → fs2 q = fs q) :=
  update_loop_fail pre post k old new fs hnodup hk hpre hkfail

/-- C5 witness: the first file readable, the second missing, a third
configured after the failure point. -/
theorem propagate_non_transactional_witness :
    ∃ fs2, update_version_path (["Cargo.toml"] ++ "gone.toml" :: ["pkg.py"])
        "1.0.0" "1.1.0" propFS
        = (fs2, some ("Error opening file " ++ "gone.toml" ++ ".")) ∧
      (∀ p ∈ ["Cargo.toml"], fs2 p = (propFS p).map (fun c => stringReplace c "1.0.0" "1.1.0")) ∧
      (∀ q, q ∉ ["Cargo.toml"] → fs2 q = propFS q) :=
  propagate_non_transactional ["Cargo.toml"] ["pkg.py"] "gone.toml" "1.0.0" "1.1.0" propFS
    (by decide) (by decide) (by decide) (by decide)

/-- C6. Reading the current version opens the first configured path; an
unopenable file is a fatal I/O error; the first line containing `version =` or
`__version__ =` decides the outcome and scanning stops there — a quoted
three-group numeric token on that line is returned, and its absence is fatal
with a message naming the offending line; a file with no marker line anywhere
is fatal with a message enumerating the two recognized marker names. -/
theorem version_reader_spec (fs : LinesFS) (path : String) :
    (fs path = none → open_path fs path = .error ("Error opening file " ++ path ++ ".")) ∧
    (∀ (preL : List String) (line : String) (postL : List String),
        fs path = some (preL ++ line :: postL) →
        (∀ l ∈ preL, hasMarker l = false) → hasMarker line = true →
        (∀ v, findVersionToken line = some v → open_path fs path = .ok v) ∧
        (findVersionToken line = none →
          open_path fs path =
            .error ("In the line \"" ++ line ++ "\" it cannot be found a version number."))) ∧
    (∀ lines, fs path = some lines → (∀ l ∈ lines, hasMarker l = false) →
        open_path fs path =
          .error ("Couldn't find the version in the path " ++ path ++
            ". Try with the following version names: [\"version\", \"__version__\"]")) ∧
    (∀ (cfg : ConfigFS) (paths : List String) (fsv : LinesFS),
        find_version_in_file cfg = .ok paths →
        find_version cfg fsv = open_path fsv (paths.headD "")) := by
  refine ⟨?_, ?_, ?_, ?_⟩
  · intro h
    simp [open_path, h]
  · intro preL line postL hfile hpre hline
    have hskip : open_path fs path = openPathLines path (line :: postL) := by
      simp [open_path, hfile, openPathLines_append_of_no_marker path preL (line :: postL) hpre]
    constructor
    · intro v hv
      rw [hskip]
      simp [openPathLines, hline, hv]
    · intro hv
      rw [hskip]
      simp [openPathLines, hline, hv]
  · intro lines hfile hnom
    have hskip : openPathLines path lines = openPathLines path [] := by
      simpa using openPathLines_append_of_no_marker path lines [] hnom
    simp [open_path, hfile, hskip, openPathLines]
  · intro cfg paths fsv h
    simp [find_version, h]

/-- C6 witness: a file whose first marker line carries `"1.2.3"` (a later
line carrying `"9.9.9"` is never reached), and a missing file. -/
theorem version_reader_spec_witness :
    open_path readFS "pyproject.toml" = .ok "1.2.3" ∧
    open_path readFS "missing.toml" = .error ("Error opening file " ++ "missing.toml" ++ ".") := by
  constructor
  · exact ((version_reader_spec readFS "pyproject.toml").2.1 ["[tool.poetry]"]
      "version = \"1.2.3\"" ["version = \"9.9.9\""] rfl (by decide) (by decide)).1
      "1.2.3" (by decide)
  · exact (version_reader_spec readFS "missing.toml").1 rfl

/-- C7. Cleanup deletes every regular file directly inside the store
directory, skipping non-file entries; a missing directory is itself fatal; an
existing empty directory is a successful no-op; and a single failed deletion
is fatal, aborting the remaining deletions (the failing file and everything
after it stay in place, non-files before it are kept). -/
theorem cleanup_spec :
    (∀ entries : List DirEntry, (∀ e ∈ entries, e.file = true → e.removable = true) →
        delete_changesets (some entries) = (some (entries.filter (fun e => !e.file)), none)) ∧
    delete_changesets none = (none, some "The folder .changesets does not exist.") ∧
    delete_changesets (some []) = (some [], none) ∧
    (∀ (preE : List DirEntry) (e : DirEntry) (postE : List DirEntry),
        (∀ x ∈ preE, x.file = true → x.removable = true) →
        e.file = true → e.removable = false →
        delete_changesets (some (preE ++ e :: postE)) =
          (some (preE.filter (fun x => !x.file) ++ e :: postE),
            some ("Error deleting file " ++ e.name))) := by
  refine ⟨?_, rfl, rfl, ?_⟩
  · intro entries h
    simp [delete_changesets, deleteEntries_all_ok entries h]
  · intro preE e postE h he hrm
    simp [delete_changesets, deleteEntries_fail preE e postE h he hrm]

/-- C7 witness: a directory with one file and one subdirectory, and a
directory where the second file's deletion fails with a third entry after
it. -/
theorem cleanup_spec_witness :
    delete_changesets (some [entFileA, entDirD]) =
      (some ([entFileA, entDirD].filter (fun e => !e.file)), none) ∧
    delete_changesets (some ([entFileA] ++ entLocked :: [entFileA])) =
      (some ([entFileA].filter (fun x => !x.file) ++ entLocked :: [entFileA]),
        some ("Error deleting file " ++ entLocked.name)) :=
  ⟨cleanup_spec.1 [entFileA, entDirD] (by decide),
    cleanup_spec.2.2.2 [entFileA] entLocked [entFileA] (by decide) (by decide) (by decide)⟩

/-- C9. The version computation engine is a pure function mapping
`(major, minor, patch)` under MAJOR to `(major+1, 0, 0)`, under MINOR to
`(major, minor+1, 0)`, and under PATCH to `(major, minor, patch+1)`; in
particular `1.2.3` bumps to `2.0.0`, `1.3.0`, and `1.2.4` respectively. -/
theorem next_version_rules :
    (∀ a b c : Nat,
      bumpVersion (a, b, c) "MAJOR" = (a + 1, 0, 0) ∧
      bumpVersion (a, b, c) "MINOR" = (a, b + 1, 0) ∧
      bumpVersion (a, b, c) "PATCH" = (a, b, c + 1)) ∧
    calculate_next_version "1.2.3" "MAJOR" = "2.0.0" ∧
    calculate_next_version "1.2.3" "MINOR" = "1.3.0" ∧
    calculate_next_version "1.2.3" "PATCH" = "1.2.4" := by
  refine ⟨?_, by decide, by decide, by decide⟩
  intro a b c
  exact ⟨rfl, rfl, rfl⟩

end ChangeForge
